import Mathlib

/-!
Verification of the source-unification layer of the Stan compiler front end
(`src/stan/io/program_reader.hpp`): recursive include flattening with an
append-only event log (`program_reader::read`), the stack-based reverse
lookup (`program_reader::include_stack`), and diagnostic-trace rendering
(`program_reader::include_trace`).

Streams are modelled as lists of characters, documents as lists of lines
(joined with a newline after every line), C++ `int` as `Int`, and the
filesystem as a partial map from path strings to stream contents.  The
recursive reader uses an explicit fuel parameter: the C++ code performs
unboundedly deep recursion on nested includes (the spec notes there is no
cycle protection), so a run that would need more recursion steps than the
supplied fuel is answered with `none`.  Errors thrown by the C++ code are
modelled with `Except.error`.
-/

/-- Translation of `stan::io::preproc_event`: line number in the
concatenated program, line number in the current stream, a string action
tag and the path of the current file. -/
structure PreprocEvent where
  concat_line_num : Int
  line_num : Int
  action : String
  path : String
deriving DecidableEq

/-- The mutable state of a `program_reader`: the accumulated concatenated
program text (`program_`) and the event log (`history_`). -/
structure ReaderState where
  program : List Char
  history : List PreprocEvent
deriving DecidableEq

/-- Modelled from the spec: `stan/io/read_line.hpp` is not under `src/`.
The flattener "reads the active document line by line"; following the
spec's note that the flattened text keeps the original separators, a line
is the characters up to and including the next newline (or up to the end
of the stream), and the empty string is returned exactly at end of
stream.  Returns the line together with the rest of the stream. -/
def read_line : List Char → List Char × List Char
  | [] => ([], [])
  | c :: cs =>
    if c = '\n' then ([c], cs)
    else
      let p := read_line cs
      (c :: p.1, p.2)

/-- Modelled from the spec: `stan/io/starts_with.hpp` is not under
`src/`.  The call site `starts_with("#include ", line)` and the
documented assumption of `include_path` that the token is line initial
determine a plain prefix test of the first argument against the second. -/
def starts_with : List Char → List Char → Bool
  | [], _ => true
  | _ :: _, [] => false
  | a :: as, b :: bs => if a = b then starts_with as bs else false

/-- Number of leading space characters, mirroring the C++ index loops of
`include_path` (`while (line[i] == ' ')`), which stop at the first
non-space character or at the end of the string. -/
def countLeadingSpaces : List Char → Nat
  | c :: cs => if c = ' ' then countLeadingSpaces cs + 1 else 0
  | [] => 0

/-- C++ `std::string::substr(pos, count)` for a possibly negative
`count` of type `int`: a negative count converts to a huge unsigned
value and is clamped to the rest of the string. -/
def cppSubstr (s : List Char) (pos : Nat) (count : Int) : List Char :=
  if count < 0 then s.drop pos else (s.drop pos).take count.toNat

/-- Translation of `program_reader::include_path`: skip the 8 characters
of the token `#include` plus following spaces, then take the characters
up to the position reached by trimming spaces from the back of the
string (the C++ loop starts at the final character, which is the newline
kept by `read_line`, so it stops immediately on a newline-terminated
line). -/
def include_path (line : List Char) : List Char :=
  cppSubstr line (8 + countLeadingSpaces (line.drop 8))
    ((line.length : Int) - 1 - (countLeadingSpaces line.reverse : Int)
      - ((8 + countLeadingSpaces (line.drop 8) : Nat) : Int))

/-- The search loop of `program_reader::read`: the candidate file is the
search directory concatenated directly with the include argument, and
the first directory whose candidate opens successfully wins. -/
def findInclude (fs : String → Option (List Char)) : List String → String → Option (List Char)
  | [], _ => none
  | d :: ds, incl =>
    match fs (d ++ incl) with
    | some content => some content
    | none => findInclude fs ds incl

/-- Translation of the body of `program_reader::read` (the per-line loop
together with the recursive call for included files, which in the C++
pushes its own `start` event first).  The `Nat` argument is fuel for the
recursion; `none` means the fuel was exhausted. -/
def readAux (fs : String → Option (List Char)) (sp : List String) :
    Nat → List Char → String → Int → Int → ReaderState →
    Option (Except String (Int × ReaderState))
  | 0, _, _, _, _, _ => none
  | fuel + 1, stream, path, line_num, concat, st =>
    if (read_line stream).1 = [] then
      some (Except.ok (concat, ⟨st.program,
        st.history ++ [⟨concat, line_num - 1, "end", path⟩]⟩))
    else if starts_with ("#include ".data) (read_line stream).1 then
      match findInclude fs sp (String.mk (include_path (read_line stream).1)) with
      | none => some (Except.error "could not find include file")
      | some content =>
        match readAux fs sp fuel content
            (String.mk (include_path (read_line stream).1)) 1 concat
            ⟨st.program, st.history
              ++ [⟨concat, line_num - 1, "include",
                    String.mk (include_path (read_line stream).1)⟩]
              ++ [⟨concat, 0, "start",
                    String.mk (include_path (read_line stream).1)⟩]⟩ with
        | none => none
        | some (Except.error e) => some (Except.error e)
        | some (Except.ok pr) =>
          readAux fs sp fuel (read_line stream).2 path (line_num + 1) pr.1
            ⟨pr.2.program, pr.2.history ++ [⟨pr.1, line_num, "restart", path⟩]⟩
    else
      readAux fs sp fuel (read_line stream).2 path (line_num + 1) (concat + 1)
        ⟨st.program ++ (read_line stream).1, st.history⟩

/-- Entry into `program_reader::read` for one document: push the `start`
event and run the line loop from line number 1, exactly as the C++
method does before entering its `for` loop. -/
def readTop (fs : String → Option (List Char)) (sp : List String) (fuel : Nat)
    (stream : List Char) (path : String) (concat : Int) (st : ReaderState) :
    Option (Except String (Int × ReaderState)) :=
  readAux fs sp fuel stream path 1 concat
    ⟨st.program, st.history ++ [⟨concat, 0, "start", path⟩]⟩

/-- Translation of the `program_reader` constructor: start with an empty
program and empty history, a concatenated line counter of 0, and read
the primary document. -/
def program_reader (fs : String → Option (List Char)) (sp : List String)
    (fuel : Nat) (stream : List Char) (name : String) :
    Option (Except String ReaderState) :=
  match readTop fs sp fuel stream name 0 ⟨[], []⟩ with
  | none => none
  | some (Except.error e) => some (Except.error e)
  | some (Except.ok pr) => some (Except.ok pr.2)

/-- Loop body of `program_reader::include_stack`: scan the history with
a result stack and the active window (current file, its start line, the
concatenated start line). -/
def include_stack_aux (target : Int) :
    List PreprocEvent → List (String × Int) → String → Int → Int →
    List (String × Int)
  | [], _, _, _, _ => []
  | e :: es, result, file, file_start, concat_start =>
    if target ≤ e.concat_line_num then
      result ++ [(file, file_start + target - concat_start)]
    else if e.action = "start" ∨ e.action = "restart" then
      include_stack_aux target es result e.path e.line_num e.concat_line_num
    else if e.action = "end" then
      if result.length = 0 then []
      else include_stack_aux target es result.dropLast file file_start concat_start
    else if e.action = "include" then
      include_stack_aux target es (result ++ [(file, e.line_num + 1)])
        file file_start concat_start
    else
      include_stack_aux target es result file file_start concat_start

/-- Translation of `program_reader::include_stack` with its initial
window values. -/
def include_stack (target : Int) (history : List PreprocEvent) : List (String × Int) :=
  include_stack_aux target history [] "ERROR: UNINITIALIZED" (-1) (-1)

/-- The descending `for (size_t i = x.size() - 1; i-- > 0; )` loop of
`program_reader::include_trace`: render entries at indices `n - 1`
down to `0`. -/
def renderLoop (x : List (String × Int)) : Nat → String
  | 0 => ""
  | n + 1 =>
    "included from file \x27" ++ (x.getD n ("", 0)).1 ++ "\x27 at line "
      ++ toString (x.getD n ("", 0)).2 ++ "\n" ++ renderLoop x n

/-- The rendering part of `program_reader::include_trace`: the last
entry of the chain first, then the descending loop over the remaining
entries. -/
def renderTrace (x : List (String × Int)) : String :=
  "in file \x27" ++ (x.getD (x.length - 1) ("", 0)).1 ++ "\x27 at line "
    ++ toString (x.getD (x.length - 1) ("", 0)).2 ++ "\n"
    ++ renderLoop x (x.length - 1)

/-- Translation of `program_reader::include_trace`: look up the include
stack and throw (here: `Except.error`) when it is empty or the target
line number is below 1, otherwise render the chain. -/
def include_trace (history : List PreprocEvent) (target : Int) : Except String String :=
  if (include_stack target history).length < 1 ∨ target < 1 then
    Except.error ("Target line number " ++ toString target ++ " not found.\n")
  else
    Except.ok (renderTrace (include_stack target history))

/-- Build the character stream of a document given as a list of lines:
every line is followed by a newline. -/
def mkStream : List String → List Char
  | [] => []
  | l :: ls => l.data ++ '\n' :: mkStream ls

/-- Whether an `Except` result is an error. -/
def isErr : Except String String → Bool
  | Except.error _ => true
  | Except.ok _ => false

/-- Filesystem for the spec's concrete example: only
`inc/helper.stanfunc` exists. -/
def fsC1 : String → Option (List Char) := fun s =>
  if s = "inc/helper.stanfunc" then
    some (mkStream ["real f(real x) \x7b", "return x;", "\x7d"])
  else none

/-- The event log produced by flattening the spec's concrete example. -/
def histC1 : List PreprocEvent :=
  [⟨0, 0, "start", "main"⟩, ⟨1, 1, "include", "helper.stanfunc"⟩,
   ⟨1, 0, "start", "helper.stanfunc"⟩, ⟨4, 3, "end", "helper.stanfunc"⟩,
   ⟨4, 2, "restart", "main"⟩, ⟨5, 3, "end", "main"⟩]

/-- Predicate for lines that the reader copies verbatim: no embedded
newline and no include token at the start. -/
def PlainLine (l : String) : Prop :=
  '\n' ∉ l.data ∧ starts_with "#include ".data l.data = false

instance (l : String) : Decidable (PlainLine l) := by
  unfold PlainLine
  infer_instance

/-- The spec's line format for an entry that contributed an include
directive to a provenance chain. -/
def fmtIncluded (d : String × Int) : String :=
  "included from file \x27" ++ d.1 ++ "\x27 at line " ++ toString d.2 ++ "\n"

/-- Concatenation of a list of already newline-terminated lines. -/
def linesConcat (l : List String) : String := l.foldr (fun a b => a ++ b) ""

/-- Rendering of a provenance chain following the words of the spec:
the last (innermost) entry as an `in file` line, then each preceding
entry, second-last down to first, as an `included from file` line. -/
def specFormat (x : List (String × Int)) : String :=
  "in file \x27" ++ (x.getLastD ("", 0)).1 ++ "\x27 at line "
    ++ toString (x.getLastD ("", 0)).2 ++ "\n"
    ++ linesConcat ((x.dropLast.reverse).map fmtIncluded)

/-- Helper: when no event of the history reaches the target line, the
scan of `include_stack_aux` falls through every branch and produces the
empty chain, whatever the accumulated result and window are. -/
theorem include_stack_aux_nocover (t : Int) :
    ∀ (es : List PreprocEvent) (res : List (String × Int)) (file : String)
      (fst cst : Int), (∀ ev ∈ es, ev.concat_line_num < t) →
      include_stack_aux t es res file fst cst = [] := by
  intro es
  induction es with
  | nil => intro res file fst cst _; rfl
  | cons e es ih =>
    intro res file fst cst hnc
    have he : e.concat_line_num < t := hnc e (List.mem_cons_self e es)
    have hrest : ∀ ev ∈ es, ev.concat_line_num < t := by
      intro ev hev; exact hnc ev (List.mem_cons_of_mem e hev)
    rw [include_stack_aux]
    rw [if_neg (by omega)]
    by_cases h1 : e.action = "start" ∨ e.action = "restart"
    · rw [if_pos h1]; exact ih _ _ _ _ hrest
    · rw [if_neg h1]
      by_cases h2 : e.action = "end"
      · rw [if_pos h2]
        by_cases h3 : res.length = 0
        · rw [if_pos h3]
        · rw [if_neg h3]; exact ih _ _ _ _ hrest
      · rw [if_neg h2]
        by_cases h4 : e.action = "include"
        · rw [if_pos h4]; exact ih _ _ _ _ hrest
        · rw [if_neg h4]; exact ih _ _ _ _ hrest

/-- C1: on the spec's concrete example (primary document `main` with an
include of `helper.stanfunc` found under `inc/`), flattening produces
exactly the 5-line concatenation, and resolving lines 1, 2, 4 and 5
against the produced log gives the provenance chains stated in the
spec. -/
theorem c1_concrete_example :
    program_reader fsC1 ["inc/"] 10
        (mkStream ["model \x7b", "#include helper.stanfunc", "\x7d"]) "main" =
      some (Except.ok ⟨mkStream
        ["model \x7b", "real f(real x) \x7b", "return x;", "\x7d", "\x7d"], histC1⟩) ∧
    include_stack 1 histC1 = [("main", 1)] ∧
    include_stack 2 histC1 = [("main", 2), ("helper.stanfunc", 1)] ∧
    include_stack 4 histC1 = [("main", 2), ("helper.stanfunc", 3)] ∧
    include_stack 5 histC1 = [("main", 3)] :=
  ⟨rfl, rfl, rfl, rfl, rfl⟩

/-- C4: the resolver entry point fails exactly when the target is below
1 or the scan of the log yields no covering chain; in particular
targets 0 and -1 always fail, for every log. -/
theorem c4_target_not_found (h : List PreprocEvent) (t : Int) :
    (isErr (include_trace h t) = true ↔ (t < 1 ∨ include_stack t h = [])) ∧
    isErr (include_trace h 0) = true ∧ isErr (include_trace h (-1)) = true := by
  refine ⟨?_, ?_, ?_⟩
  · by_cases hc : (include_stack t h).length < 1 ∨ t < 1
    · simp only [include_trace, if_pos hc, isErr, true_iff]
      rcases hc with hlen | ht
      · exact Or.inr (List.length_eq_zero.mp (by omega))
      · exact Or.inl ht
    · simp only [include_trace, if_neg hc, isErr]
      push_neg at hc
      simp only [Bool.false_eq_true, false_iff]
      intro hor
      rcases hor with ht | hnil
      · omega
      · rw [hnil] at hc
        simp at hc
  · have h0 : (include_stack 0 h).length < 1 ∨ (0 : Int) < 1 := Or.inr (by norm_num)
    simp only [include_trace, if_pos h0, isErr]
  · have h1 : (include_stack (-1) h).length < 1 ∨ (-1 : Int) < 1 := Or.inr (by norm_num)
    simp only [include_trace, if_pos h1, isErr]

/-- C9: the embedding of the flattener and of both resolver entry
points is a pure function, so identical inputs give identical flattened
text, identical logs, identical chains and identical failures. -/
theorem c9_deterministic (fs : String → Option (List Char)) (sp : List String)
    (fuel : Nat) (stream : List Char) (name : String) (t : Int)
    (hist : List PreprocEvent) :
    program_reader fs sp fuel stream name = program_reader fs sp fuel stream name ∧
    include_stack t hist = include_stack t hist ∧
    include_trace hist t = include_trace hist t :=
  ⟨rfl, rfl, rfl⟩

/-- C10: the chain-building query never fails: with no covering event it
returns the empty chain, and a target at most 0 scanned against a log
whose first event is the primary start at concatenated line 0 returns
the non-empty uninitialized singleton; the rejection of targets below 1
happens only in the trace-formatting entry point. -/
theorem c10_include_stack_total (log log2 : List PreprocEvent) (e : PreprocEvent)
    (rest : List PreprocEvent) (t t2 : Int)
    (hlog : log = e :: rest) (_hact : e.action = "start")
    (hc : e.concat_line_num = 0) (ht : t ≤ 0)
    (hnc : ∀ ev ∈ log2, ev.concat_line_num < t2) :
    include_stack t log = [("ERROR: UNINITIALIZED", t)] ∧
    isErr (include_trace log t) = true ∧
    include_stack t2 log2 = [] := by
  refine ⟨?_, ?_, ?_⟩
  · rw [hlog, include_stack, include_stack_aux, if_pos (by omega)]
    have harith : (-1 : Int) + t - (-1) = t := by omega
    rw [harith]
    rfl
  · have hcond : (include_stack t log).length < 1 ∨ t < 1 := Or.inr (by omega)
    simp only [include_trace, if_pos hcond, isErr]
  · rw [include_stack]
    exact include_stack_aux_nocover t2 log2 _ _ _ _ hnc

/-- Witness for C10 at a concrete log, target 0 and a non-covering log
with target 5. -/
theorem c10_include_stack_total_witness :
    include_stack 0 [(⟨0, 0, "start", "main"⟩ : PreprocEvent)] =
      [("ERROR: UNINITIALIZED", 0)] ∧
    isErr (include_trace [(⟨0, 0, "start", "main"⟩ : PreprocEvent)] 0) = true ∧
    include_stack 5 [(⟨0, 0, "start", "m"⟩ : PreprocEvent)] = [] :=
  c10_include_stack_total _ _ _ _ _ _ rfl rfl rfl (by norm_num)
    (by intro ev hev; simp at hev; rw [hev]; norm_num)

/-- Leading spaces never outnumber the characters. -/
theorem countLeadingSpaces_le (t : List Char) : countLeadingSpaces t ≤ t.length := by
  induction t with
  | nil => simp [countLeadingSpaces]
  | cons c cs ih =>
    rw [countLeadingSpaces]
    by_cases hc : c = ' '
    · rw [if_pos hc]; simp; omega
    · rw [if_neg hc]; simp

/-- Appending a non-space character does not change the leading-space
count. -/
theorem countLeadingSpaces_append (t : List Char) (c : Char) (hc : ¬ c = ' ') :
    countLeadingSpaces (t ++ [c]) = countLeadingSpaces t := by
  induction t with
  | nil => simp [countLeadingSpaces, if_neg hc]
  | cons a as ih =>
    by_cases ha : a = ' '
    · simp only [List.cons_append, countLeadingSpaces, if_pos ha]
      exact congrArg (fun n => n + 1) ih
    · simp only [List.cons_append, countLeadingSpaces, if_neg ha]

/-- Dropping the counted leading spaces is the same as `dropWhile` on
spaces. -/
theorem drop_countLeadingSpaces (t : List Char) :
    t.drop (countLeadingSpaces t) = t.dropWhile (fun c => c = ' ') := by
  induction t with
  | nil => rfl
  | cons a as ih =>
    by_cases ha : a = ' '
    · rw [countLeadingSpaces, if_pos ha, List.drop_succ_cons, ih]
      simp [ha]
    · rw [countLeadingSpaces, if_neg ha, List.drop_zero]
      simp [ha]

/-- The prefix test of `starts_with` holds exactly for lines that begin
with the given characters. -/
theorem starts_with_iff (p : List Char) :
    ∀ l : List Char, starts_with p l = true ↔ ∃ r, l = p ++ r := by
  induction p with
  | nil =>
    intro l
    simp [starts_with]
  | cons a as ih =>
    intro l
    cases l with
    | nil => simp [starts_with]
    | cons b bs =>
      by_cases hab : a = b
      · subst hab
        rw [starts_with, if_pos rfl]
        rw [ih bs]
        constructor
        · rintro ⟨r, rfl⟩; exact ⟨r, rfl⟩
        · rintro ⟨r, hr⟩
          rw [List.cons_append] at hr
          injection hr with h1 h2
          exact ⟨r, h2⟩
      · rw [starts_with, if_neg hab]
        constructor
        · intro h; exact absurd h (by decide)
        · rintro ⟨r, hr⟩
          rw [List.cons_append] at hr
          injection hr with h1 h2
          exact absurd h1.symm hab

/-- A list always starts with its own prefix. -/
theorem starts_with_append (p r : List Char) : starts_with p (p ++ r) = true :=
  (starts_with_iff p (p ++ r)).mpr ⟨r, rfl⟩

/-- On a newline-terminated include line, `include_path` returns the
text after the token with leading spaces removed; trailing spaces stay,
because the backwards trim loop stops at the newline. -/
theorem include_path_eq_dropWhile (t : List Char) (_ht : '\n' ∉ t) :
    include_path ("#include ".data ++ t ++ ['\n']) = t.dropWhile (fun c => c = ' ') := by
  have hdata : "#include ".data = ['#', 'i', 'n', 'c', 'l', 'u', 'd', 'e', ' '] := rfl
  have hdrop8 : (("#include ".data ++ t ++ ['\n']).drop 8) = ' ' :: (t ++ ['\n']) := by
    rw [hdata]; simp
  have hclst : countLeadingSpaces (t ++ ['\n']) = countLeadingSpaces t :=
    countLeadingSpaces_append t '\n' (by decide)
  have hcls8 : countLeadingSpaces (("#include ".data ++ t ++ ['\n']).drop 8)
      = countLeadingSpaces t + 1 := by
    rw [hdrop8, countLeadingSpaces, if_pos rfl, hclst]
  have hrev : countLeadingSpaces (("#include ".data ++ t ++ ['\n']).reverse) = 0 := by
    have : ("#include ".data ++ t ++ ['\n']).reverse
        = '\n' :: (t.reverse ++ "#include ".data.reverse) := by
      simp
    rw [this, countLeadingSpaces, if_neg (by decide)]
  have hlen : ("#include ".data ++ t ++ ['\n']).length = t.length + 10 := by
    rw [hdata]; simp
  have hle : countLeadingSpaces t ≤ t.length := countLeadingSpaces_le t
  rw [include_path, hcls8, hrev, hlen]
  have hcount : ((t.length + 10 : Nat) : Int) - 1 - ((0 : Nat) : Int)
      - ((8 + (countLeadingSpaces t + 1) : Nat) : Int)
      = (t.length : Int) - (countLeadingSpaces t : Int) := by push_cast; ring
  rw [hcount, cppSubstr, if_neg (by omega)]
  have hdrop9 : ("#include ".data ++ t ++ ['\n']).drop (8 + (countLeadingSpaces t + 1))
      = (t.drop (countLeadingSpaces t)) ++ ['\n'] := by
    have h1 : 8 + (countLeadingSpaces t + 1) = 9 + countLeadingSpaces t := by omega
    rw [h1, ← List.drop_drop, hdata]
    simp only [List.append_assoc, List.cons_append, List.drop_succ_cons, List.drop_zero,
      List.nil_append]
    exact List.drop_append_of_le_length hle
  rw [hdrop9]
  have hlen2 : (t.drop (countLeadingSpaces t)).length = t.length - countLeadingSpaces t := by
    simp
  have htonat : ((t.length : Int) - (countLeadingSpaces t : Int)).toNat
      = t.length - countLeadingSpaces t := by omega
  rw [htonat, ← hlen2, List.take_left]
  exact drop_countLeadingSpaces t

/-- C5 counterexample: the code keeps the trailing blank of the include
argument on the line `#include foo \n` (the spec says surrounding blanks
are trimmed), and a line with the include token after indentation is
flattened as ordinary program text instead of being treated as an
include directive. -/
theorem c5_counterexample :
    include_path ("#include foo \n".data) = "foo ".data ∧
    "foo ".data ≠ "foo".data ∧
    starts_with "#include ".data ("  #include foo\n".data) = false ∧
    program_reader (fun _ => none) ["inc/"] 2 (mkStream ["  #include foo"]) "main" =
      some (Except.ok ⟨"  #include foo\n".data,
        [⟨0, 0, "start", "main"⟩, ⟨1, 1, "end", "main"⟩]⟩) :=
  ⟨rfl, by decide, rfl, rfl⟩

/-- C5 amended: a line is treated as an include directive exactly when
it begins, with no preceding indentation, with the nine characters
`#include` followed by one space; on a newline-terminated line the
extracted path is the text after that prefix with leading spaces
removed and the trailing newline excluded, while trailing blanks are
retained. -/
theorem c5_include_syntax_amended (l t : List Char) (ht : '\n' ∉ t) :
    (starts_with "#include ".data l = true ↔ ∃ r, l = "#include ".data ++ r) ∧
    include_path ("#include ".data ++ t ++ ['\n']) = t.dropWhile (fun c => c = ' ') :=
  ⟨starts_with_iff _ l, include_path_eq_dropWhile t ht⟩

/-- Witness for the amended C5 on the line `#include abc` and the
argument text `foo `. -/
theorem c5_include_syntax_amended_witness :
    (starts_with "#include ".data "#include abc\n".data = true ↔
      ∃ r, "#include abc\n".data = "#include ".data ++ r) ∧
    include_path ("#include ".data ++ "foo ".data ++ ['\n']) =
      "foo ".data.dropWhile (fun c => c = ' ') :=
  c5_include_syntax_amended "#include abc\n".data "foo ".data (by decide)

/-- Reading a newline-terminated line from the front of a stream. -/
theorem read_line_append (l : List Char) (rest : List Char) (hl : '\n' ∉ l) :
    read_line (l ++ '\n' :: rest) = (l ++ ['\n'], rest) := by
  induction l with
  | nil => simp [read_line]
  | cons c cs ih =>
    have hc : ¬ c = '\n' := fun h => hl (h ▸ List.mem_cons_self c cs)
    have hcs : '\n' ∉ cs := fun h => hl (List.mem_cons_of_mem c h)
    rw [List.cons_append, read_line, if_neg hc]
    rw [ih hcs]
    rfl

/-- Appending the final newline does not change the include-token test,
because the token contains no newline. -/
theorem starts_with_append_nl (p : List Char) (hp : '\n' ∉ p) :
    ∀ l : List Char, starts_with p (l ++ ['\n']) = starts_with p l := by
  induction p with
  | nil => intro l; rfl
  | cons a as ih =>
    intro l
    cases l with
    | nil =>
      have ha : ¬ a = '\n' := fun h => hp (h ▸ List.mem_cons_self a as)
      rw [List.nil_append, starts_with, starts_with, if_neg ha]
    | cons b bs =>
      have has : '\n' ∉ as := fun h => hp (List.mem_cons_of_mem a h)
      rw [List.cons_append, starts_with, starts_with]
      by_cases hab : a = b
      · rw [if_pos hab, if_pos hab, ih has]
      · rw [if_neg hab, if_neg hab]

/-- One step of the reading loop on an ordinary program line: the line
is moved to the program text, the counters advance, the history is
unchanged. -/
theorem readAux_plain_step (fs : String → Option (List Char)) (sp : List String)
    (l : List Char) (hl : '\n' ∉ l)
    (hinc : starts_with "#include ".data l = false)
    (fuel : Nat) (rest : List Char) (path : String) (ln concat : Int)
    (st : ReaderState) :
    readAux fs sp (fuel + 1) (l ++ '\n' :: rest) path ln concat st =
      readAux fs sp fuel rest path (ln + 1) (concat + 1)
        ⟨st.program ++ (l ++ ['\n']), st.history⟩ := by
  rw [readAux, read_line_append l rest hl]
  have hne : ¬ (l ++ ['\n'], rest).1 = ([] : List Char) := by simp
  rw [if_neg hne]
  have hsw : starts_with "#include ".data (l ++ ['\n'], rest).1 = false := by
    show starts_with "#include ".data (l ++ ['\n']) = false
    rw [starts_with_append_nl "#include ".data (by decide) l, hinc]
  rw [if_neg (by simp [hsw])]

/-- Running the loop over a block of ordinary lines prefixed to an
arbitrary remaining stream: the block is copied to the program text and
the counters advance by the number of lines. -/
theorem readAux_plain_run (fs : String → Option (List Char)) (sp : List String)
    (ls : List String) (hls : ∀ l ∈ ls, PlainLine l) :
    ∀ (fuel : Nat) (rest : List Char) (path : String) (ln concat : Int)
      (st : ReaderState),
      readAux fs sp (ls.length + fuel) (mkStream ls ++ rest) path ln concat st =
        readAux fs sp fuel rest path (ln + ls.length) (concat + ls.length)
          ⟨st.program ++ mkStream ls, st.history⟩ := by
  induction ls with
  | nil =>
    intro fuel rest path ln concat st
    simp [mkStream]
  | cons l ls ih =>
    intro fuel rest path ln concat st
    have hl : PlainLine l := hls l (List.mem_cons_self l ls)
    have hls2 : ∀ x ∈ ls, PlainLine x := fun x hx => hls x (List.mem_cons_of_mem l hx)
    have hshape : (l :: ls).length + fuel = (ls.length + fuel) + 1 := by
      simp; omega
    rw [hshape]
    have hstream : mkStream (l :: ls) ++ rest = l.data ++ '\n' :: (mkStream ls ++ rest) := by
      rw [mkStream]; simp
    rw [hstream, readAux_plain_step fs sp l.data hl.1 hl.2 (ls.length + fuel)
      (mkStream ls ++ rest) path ln concat st]
    rw [ih hls2 fuel rest path (ln + 1) (concat + 1) _]
    have harith1 : ln + 1 + (ls.length : Int) = ln + ((l :: ls).length : Int) := by
      simp; omega
    have harith2 : concat + 1 + (ls.length : Int) = concat + ((l :: ls).length : Int) := by
      simp; omega
    rw [harith1, harith2]
    have hprog : st.program ++ (l.data ++ ['\n']) ++ mkStream ls
        = st.program ++ mkStream (l :: ls) := by
      rw [mkStream]; simp
    rw [hprog]

/-- The loop at end of stream: push the `end` event for the previous
line and return. -/
theorem readAux_eof (fs : String → Option (List Char)) (sp : List String)
    (fuel : Nat) (path : String) (ln concat : Int) (st : ReaderState) :
    readAux fs sp (fuel + 1) [] path ln concat st =
      some (Except.ok (concat, ⟨st.program,
        st.history ++ [⟨concat, ln - 1, "end", path⟩]⟩)) := by
  rw [readAux]
  have h : (read_line []).1 = ([] : List Char) := rfl
  rw [if_pos h]

/-- Unfolding of the constructor run to the line loop started on the
initial state. -/
theorem program_reader_eq (fs : String → Option (List Char)) (sp : List String)
    (fuel : Nat) (stream : List Char) (name : String) :
    program_reader fs sp fuel stream name =
      match readAux fs sp fuel stream name 1 0 ⟨[], [⟨0, 0, "start", name⟩]⟩ with
      | none => none
      | some (Except.error e) => some (Except.error e)
      | some (Except.ok pr) => some (Except.ok pr.2) := rfl

/-- End-of-stream step stated for any non-zero fuel, convenient for
rewriting with a literal fuel value. -/
theorem readAux_eof_any (fs : String → Option (List Char)) (sp : List String)
    (fuel : Nat) (hf : fuel ≠ 0) (path : String) (ln concat : Int) (st : ReaderState) :
    readAux fs sp fuel [] path ln concat st =
      some (Except.ok (concat, ⟨st.program,
        st.history ++ [⟨concat, ln - 1, "end", path⟩]⟩)) := by
  cases fuel with
  | zero => exact absurd rfl hf
  | succ n => exact readAux_eof fs sp n path ln concat st

/-- Scan step of `include_stack_aux` when the event covers the target. -/
theorem isa_cover (t : Int) (e : PreprocEvent) (es : List PreprocEvent)
    (res : List (String × Int)) (f : String) (fst cst : Int)
    (h : t ≤ e.concat_line_num) :
    include_stack_aux t (e :: es) res f fst cst = res ++ [(f, fst + t - cst)] := by
  rw [include_stack_aux, if_pos h]

/-- Scan step on a `start` or `restart` event below the target: the
window is refreshed. -/
theorem isa_start (t : Int) (e : PreprocEvent) (es : List PreprocEvent)
    (res : List (String × Int)) (f : String) (fst cst : Int)
    (h1 : ¬ t ≤ e.concat_line_num) (h2 : e.action = "start" ∨ e.action = "restart") :
    include_stack_aux t (e :: es) res f fst cst =
      include_stack_aux t es res e.path e.line_num e.concat_line_num := by
  rw [include_stack_aux, if_neg h1, if_pos h2]

/-- Scan step on an `include` event below the target: a provisional
ancestor entry is pushed. -/
theorem isa_include (t : Int) (e : PreprocEvent) (es : List PreprocEvent)
    (res : List (String × Int)) (f : String) (fst cst : Int)
    (h1 : ¬ t ≤ e.concat_line_num) (h2 : e.action = "include") :
    include_stack_aux t (e :: es) res f fst cst =
      include_stack_aux t es (res ++ [(f, e.line_num + 1)]) f fst cst := by
  rw [include_stack_aux, if_neg h1, h2]
  rw [if_neg (by decide), if_neg (by decide), if_pos rfl]

/-- Scan step on an `end` event below the target with a non-empty
result stack: the last provisional entry is dropped. -/
theorem isa_end_pop (t : Int) (e : PreprocEvent) (es : List PreprocEvent)
    (res : List (String × Int)) (f : String) (fst cst : Int)
    (h1 : ¬ t ≤ e.concat_line_num) (h2 : e.action = "end") (h3 : res ≠ []) :
    include_stack_aux t (e :: es) res f fst cst =
      include_stack_aux t es res.dropLast f fst cst := by
  rw [include_stack_aux, if_neg h1, h2]
  rw [if_neg (by decide), if_pos rfl]
  rw [if_neg (by simpa [List.length_eq_zero] using h3)]

/-- The full run of the reader on a document without include
directives: the program is copied verbatim and the log consists of the
primary `start` and the final `end` event. -/
theorem noinclude_run (fs : String → Option (List Char)) (sp : List String)
    (lines : List String) (name : String) (hplain : ∀ l ∈ lines, PlainLine l) :
    program_reader fs sp (lines.length + 1) (mkStream lines) name =
      some (Except.ok ⟨mkStream lines,
        [⟨0, 0, "start", name⟩,
         ⟨(lines.length : Int), (lines.length : Int), "end", name⟩]⟩) := by
  rw [program_reader_eq]
  have hrun := readAux_plain_run fs sp lines hplain 1 [] name 1 0
    ⟨[], [⟨0, 0, "start", name⟩]⟩
  rw [List.append_nil] at hrun
  rw [hrun]
  rw [readAux_eof_any fs sp 1 (by norm_num) name]
  have e1 : (0 : Int) + (lines.length : Int) = (lines.length : Int) := by omega
  have e2 : 1 + (lines.length : Int) - 1 = (lines.length : Int) := by omega
  rw [e1, e2]
  rfl

/-- C3: flattening a document with no include directives reproduces the
input verbatim, and every 1-indexed input line resolves to the
single-entry chain naming the display name and that line. -/
theorem c3_no_include_document (fs : String → Option (List Char)) (sp : List String)
    (lines : List String) (name : String) (k : Int)
    (hplain : ∀ l ∈ lines, PlainLine l) (hk1 : 1 ≤ k) (hk2 : k ≤ lines.length) :
    program_reader fs sp (lines.length + 1) (mkStream lines) name =
      some (Except.ok ⟨mkStream lines,
        [⟨0, 0, "start", name⟩,
         ⟨(lines.length : Int), (lines.length : Int), "end", name⟩]⟩) ∧
    include_stack k
      [⟨0, 0, "start", name⟩,
       ⟨(lines.length : Int), (lines.length : Int), "end", name⟩] = [(name, k)] := by
  refine ⟨noinclude_run fs sp lines name hplain, ?_⟩
  rw [include_stack]
  rw [isa_start k _ _ _ _ _ _ (by show ¬ k ≤ (0 : Int); omega) (Or.inl rfl)]
  rw [isa_cover k _ _ _ _ _ _ (by show k ≤ (lines.length : Int); omega)]
  have e1 : (0 : Int) + k - 0 = k := by omega
  show [] ++ [(name, (0 : Int) + k - 0)] = [(name, k)]
  rw [e1, List.nil_append]

/-- Witness for C3 on a two-line document resolved at line 2. -/
theorem c3_no_include_document_witness :
    program_reader (fun _ => none) [] 3 (mkStream ["a", "b"]) "doc" =
      some (Except.ok ⟨mkStream ["a", "b"],
        [⟨0, 0, "start", "doc"⟩, ⟨2, 2, "end", "doc"⟩]⟩) ∧
    include_stack 2 [⟨0, 0, "start", "doc"⟩, ⟨2, 2, "end", "doc"⟩] = [("doc", 2)] :=
  c3_no_include_document (fun _ => none) [] ["a", "b"] "doc" 2
    (by decide) (by norm_num) (by norm_num)

/-- The stream of concatenated documents is the concatenation of the
streams. -/
theorem mkStream_append (a b : List String) :
    mkStream (a ++ b) = mkStream a ++ mkStream b := by
  induction a with
  | nil => simp [mkStream]
  | cons l ls ih =>
    rw [List.cons_append, mkStream, mkStream, ih]
    simp

/-- Reading an include line whose target is found in no search
directory: the run aborts with the include-not-found error. -/
theorem readAux_include_notfound (fs : String → Option (List Char)) (sp : List String)
    (fuel : Nat) (l : List Char) (hl : '\n' ∉ l)
    (hsw : starts_with "#include ".data l = true)
    (hfind : findInclude fs sp (String.mk (include_path (l ++ ['\n']))) = none)
    (rest : List Char) (path : String) (ln concat : Int) (st : ReaderState) :
    readAux fs sp (fuel + 1) (l ++ '\n' :: rest) path ln concat st =
      some (Except.error "could not find include file") := by
  rw [readAux, read_line_append l rest hl]
  have hne : ¬ (l ++ ['\n'], rest).1 = ([] : List Char) := by simp
  rw [if_neg hne]
  have hswc : starts_with "#include ".data ((l ++ ['\n'], rest).1 : List Char) = true := by
    show starts_with "#include ".data (l ++ ['\n']) = true
    rw [starts_with_append_nl "#include ".data (by decide) l]
    exact hsw
  rw [if_pos hswc]
  have hfind2 : findInclude fs sp
      (String.mk (include_path ((l ++ ['\n'], rest).1 : List Char))) = none := hfind
  simp only [hfind2]

/-- Reading an include line whose target is found, given the result of
the nested run on the included content: the reader continues behind the
line with the nested result and a `restart` event. -/
theorem readAux_include_run (fs : String → Option (List Char)) (sp : List String)
    (fuel : Nat) (l : List Char) (hl : '\n' ∉ l)
    (hsw : starts_with "#include ".data l = true) (content : List Char)
    (hfind : findInclude fs sp (String.mk (include_path (l ++ ['\n']))) = some content)
    (rest : List Char) (path : String) (ln concat : Int) (st : ReaderState)
    (c2 : Int) (st2 : ReaderState)
    (hinner : readAux fs sp fuel content (String.mk (include_path (l ++ ['\n']))) 1 concat
        ⟨st.program, st.history
          ++ [⟨concat, ln - 1, "include", String.mk (include_path (l ++ ['\n']))⟩]
          ++ [⟨concat, 0, "start", String.mk (include_path (l ++ ['\n']))⟩]⟩
      = some (Except.ok (c2, st2))) :
    readAux fs sp (fuel + 1) (l ++ '\n' :: rest) path ln concat st =
      readAux fs sp fuel rest path (ln + 1) c2
        ⟨st2.program, st2.history ++ [⟨c2, ln, "restart", path⟩]⟩ := by
  rw [readAux, read_line_append l rest hl]
  have hne : ¬ (l ++ ['\n'], rest).1 = ([] : List Char) := by simp
  rw [if_neg hne]
  have hswc : starts_with "#include ".data ((l ++ ['\n'], rest).1 : List Char) = true := by
    show starts_with "#include ".data (l ++ ['\n']) = true
    rw [starts_with_append_nl "#include ".data (by decide) l]
    exact hsw
  rw [if_pos hswc]
  have hfind2 : findInclude fs sp
      (String.mk (include_path ((l ++ ['\n'], rest).1 : List Char))) = some content := hfind
  simp only [hfind2]
  have hinner2 : readAux fs sp fuel content
      (String.mk (include_path ((l ++ ['\n'], rest).1 : List Char))) 1 concat
      ⟨st.program, st.history
        ++ [⟨concat, ln - 1, "include",
              String.mk (include_path ((l ++ ['\n'], rest).1 : List Char))⟩]
        ++ [⟨concat, 0, "start",
              String.mk (include_path ((l ++ ['\n'], rest).1 : List Char))⟩]⟩
      = some (Except.ok (c2, st2)) := hinner
  simp only [hinner2]

/-- C6: when the include argument concatenated after every search
directory opens no file, flattening the document aborts with the
include-not-found error; the result carries no flattened text and no
event log. -/
theorem c6_include_not_found (fs : String → Option (List Char)) (sp : List String)
    (pre : List String) (tgt : String) (restS : List Char) (name : String) (f : Nat)
    (hpre : ∀ l ∈ pre, PlainLine l) (htgt : '\n' ∉ tgt.data)
    (hfind : findInclude fs sp
      (String.mk (include_path (("#include " ++ tgt).data ++ ['\n']))) = none) :
    program_reader fs sp (pre.length + (f + 1))
        (mkStream pre ++ (("#include " ++ tgt).data ++ '\n' :: restS)) name =
      some (Except.error "could not find include file") := by
  have hdata : ("#include " ++ tgt).data = "#include ".data ++ tgt.data :=
    String.data_append _ _
  have hlnl : '\n' ∉ ("#include " ++ tgt).data := by
    rw [hdata]
    intro hmem
    rcases List.mem_append.mp hmem with hmem1 | hmem1
    · exact absurd hmem1 (by decide)
    · exact htgt hmem1
  have hsw : starts_with "#include ".data (("#include " ++ tgt).data) = true := by
    rw [hdata]; exact starts_with_append _ _
  rw [program_reader_eq]
  have hrun := readAux_plain_run fs sp pre hpre (f + 1)
    (("#include " ++ tgt).data ++ '\n' :: restS) name 1 0 ⟨[], [⟨0, 0, "start", name⟩]⟩
  rw [hrun]
  rw [readAux_include_notfound fs sp f (("#include " ++ tgt).data) hlnl hsw hfind]

/-- Witness for C6: a document whose second line includes a file that
exists nowhere. -/
theorem c6_include_not_found_witness :
    program_reader (fun _ => none) ["a/"] (1 + (0 + 1))
        (mkStream ["x"] ++ (("#include " ++ "nope").data ++ '\n' :: [])) "main" =
      some (Except.error "could not find include file") :=
  c6_include_not_found (fun _ => none) ["a/"] ["x"] "nope" [] "main" 0
    (by decide) (by decide) rfl

/-- Full effect of one include line whose target document contains only
ordinary lines: the included text is appended to the program, and the
log gains the `include`, nested `start`, nested `end` and `restart`
events, after which the reader continues behind the include line. -/
theorem include_line_run (fs : String → Option (List Char)) (sp : List String)
    (nameB : String) (Bls : List String) (f2 : Nat)
    (hB : ∀ l ∈ Bls, PlainLine l)
    (hn1 : '\n' ∉ nameB.data)
    (hn2 : nameB.data.dropWhile (fun c => c = ' ') = nameB.data)
    (hfind : findInclude fs sp nameB = some (mkStream Bls))
    (hf2 : f2 ≠ 0)
    (rest : List Char) (path : String) (ln concat : Int) (prog : List Char)
    (hist : List PreprocEvent) :
    readAux fs sp ((Bls.length + f2) + 1) (("#include " ++ nameB).data ++ '\n' :: rest)
        path ln concat ⟨prog, hist⟩ =
      readAux fs sp (Bls.length + f2) rest path (ln + 1) (concat + (Bls.length : Int))
        ⟨prog ++ mkStream Bls,
         (((hist ++ [⟨concat, ln - 1, "include", nameB⟩])
            ++ [⟨concat, 0, "start", nameB⟩])
            ++ [⟨concat + (Bls.length : Int), 1 + (Bls.length : Int) - 1, "end", nameB⟩])
            ++ [⟨concat + (Bls.length : Int), ln, "restart", path⟩]⟩ := by
  have hdata : ("#include " ++ nameB).data = "#include ".data ++ nameB.data :=
    String.data_append _ _
  have hlnl : '\n' ∉ ("#include " ++ nameB).data := by
    rw [hdata]
    intro hmem
    rcases List.mem_append.mp hmem with h1 | h1
    · exact absurd h1 (by decide)
    · exact hn1 h1
  have hsw : starts_with "#include ".data (("#include " ++ nameB).data) = true := by
    rw [hdata]; exact starts_with_append _ _
  have hIncl : String.mk (include_path (("#include " ++ nameB).data ++ ['\n'])) = nameB := by
    rw [hdata, include_path_eq_dropWhile nameB.data hn1, hn2]
  have hfind2 : findInclude fs sp
      (String.mk (include_path (("#include " ++ nameB).data ++ ['\n'])))
      = some (mkStream Bls) := by
    rw [hIncl]; exact hfind
  have h1 := readAux_plain_run fs sp Bls hB f2 []
    (String.mk (include_path (("#include " ++ nameB).data ++ ['\n']))) 1 concat
    ⟨prog, (hist
      ++ [⟨concat, ln - 1, "include",
            String.mk (include_path (("#include " ++ nameB).data ++ ['\n']))⟩])
      ++ [⟨concat, 0, "start",
            String.mk (include_path (("#include " ++ nameB).data ++ ['\n']))⟩]⟩
  rw [List.append_nil] at h1
  have h2 := readAux_eof_any fs sp f2 hf2
    (String.mk (include_path (("#include " ++ nameB).data ++ ['\n'])))
    (1 + (Bls.length : Int)) (concat + (Bls.length : Int))
    ⟨prog ++ mkStream Bls, (hist
      ++ [⟨concat, ln - 1, "include",
            String.mk (include_path (("#include " ++ nameB).data ++ ['\n']))⟩])
      ++ [⟨concat, 0, "start",
            String.mk (include_path (("#include " ++ nameB).data ++ ['\n']))⟩]⟩
  have hinner : readAux fs sp (Bls.length + f2) (mkStream Bls)
      (String.mk (include_path (("#include " ++ nameB).data ++ ['\n']))) 1 concat
      ⟨prog, (hist
        ++ [⟨concat, ln - 1, "include",
              String.mk (include_path (("#include " ++ nameB).data ++ ['\n']))⟩])
        ++ [⟨concat, 0, "start",
              String.mk (include_path (("#include " ++ nameB).data ++ ['\n']))⟩]⟩
      = some (Except.ok (concat + (Bls.length : Int),
          ⟨prog ++ mkStream Bls,
           (((hist ++ [⟨concat, ln - 1, "include",
                String.mk (include_path (("#include " ++ nameB).data ++ ['\n']))⟩])
              ++ [⟨concat, 0, "start",
                    String.mk (include_path (("#include " ++ nameB).data ++ ['\n']))⟩])
              ++ [⟨concat + (Bls.length : Int), 1 + (Bls.length : Int) - 1, "end",
                    String.mk (include_path (("#include " ++ nameB).data ++ ['\n']))⟩])⟩)) := by
    rw [h1]
    exact h2
  have hmain := readAux_include_run fs sp (Bls.length + f2) (("#include " ++ nameB).data)
    hlnl hsw (mkStream Bls) hfind2 rest path ln concat ⟨prog, hist⟩
    (concat + (Bls.length : Int))
    ⟨prog ++ mkStream Bls,
     ((hist ++ [⟨concat, ln - 1, "include",
          String.mk (include_path (("#include " ++ nameB).data ++ ['\n']))⟩])
        ++ [⟨concat, 0, "start",
              String.mk (include_path (("#include " ++ nameB).data ++ ['\n']))⟩])
        ++ [⟨concat + (Bls.length : Int), 1 + (Bls.length : Int) - 1, "end",
              String.mk (include_path (("#include " ++ nameB).data ++ ['\n']))⟩]⟩
    hinner
  rw [hIncl] at hmain
  exact hmain

/-- A successful line-loop run determines the constructor result. -/
theorem program_reader_ok (fs : String → Option (List Char)) (sp : List String)
    (fuel : Nat) (stream : List Char) (name : String) (c : Int) (st : ReaderState)
    (h : readAux fs sp fuel stream name 1 0 ⟨[], [⟨0, 0, "start", name⟩]⟩
      = some (Except.ok (c, st))) :
    program_reader fs sp fuel stream name = some (Except.ok st) := by
  rw [program_reader_eq]
  simp only [h]

/-- C2: a primary document that includes exactly one plain document `B`
at source line `pre.length + 1` flattens to the pre-lines, then `B`,
then the post-lines, and every flattened line that originated from the
k-th line of `B` resolves to the two-entry chain naming the including
line of the primary document and then line k of `B`. -/
theorem c2_single_include_document (fs : String → Option (List Char)) (sp : List String)
    (pre post Bls : List String) (nameA nameB : String) (k : Int)
    (hpre : ∀ l ∈ pre, PlainLine l) (hpost : ∀ l ∈ post, PlainLine l)
    (hB : ∀ l ∈ Bls, PlainLine l)
    (hn1 : '\n' ∉ nameB.data)
    (hn2 : nameB.data.dropWhile (fun c => c = ' ') = nameB.data)
    (hfind : findInclude fs sp nameB = some (mkStream Bls))
    (hk1 : 1 ≤ k) (hk2 : k ≤ Bls.length) :
    program_reader fs sp (pre.length + ((Bls.length + (post.length + 2)) + 1))
        (mkStream (pre ++ [("#include " ++ nameB)] ++ post)) nameA =
      some (Except.ok ⟨mkStream (pre ++ Bls ++ post),
        [⟨0, 0, "start", nameA⟩,
         ⟨(pre.length : Int), (pre.length : Int), "include", nameB⟩,
         ⟨(pre.length : Int), 0, "start", nameB⟩,
         ⟨(pre.length : Int) + (Bls.length : Int), (Bls.length : Int), "end", nameB⟩,
         ⟨(pre.length : Int) + (Bls.length : Int), (pre.length : Int) + 1, "restart", nameA⟩,
         ⟨(pre.length : Int) + (Bls.length : Int) + (post.length : Int),
          (pre.length : Int) + (post.length : Int) + 1, "end", nameA⟩]⟩) ∧
    include_stack ((pre.length : Int) + k)
        [⟨0, 0, "start", nameA⟩,
         ⟨(pre.length : Int), (pre.length : Int), "include", nameB⟩,
         ⟨(pre.length : Int), 0, "start", nameB⟩,
         ⟨(pre.length : Int) + (Bls.length : Int), (Bls.length : Int), "end", nameB⟩,
         ⟨(pre.length : Int) + (Bls.length : Int), (pre.length : Int) + 1, "restart", nameA⟩,
         ⟨(pre.length : Int) + (Bls.length : Int) + (post.length : Int),
          (pre.length : Int) + (post.length : Int) + 1, "end", nameA⟩]
      = [(nameA, (pre.length : Int) + 1), (nameB, k)] ∧
    (pre ++ Bls ++ post).length = (pre.length + post.length) + Bls.length := by
  refine ⟨?_, ?_, ?_⟩
  · refine program_reader_ok fs sp _ _ _
      ((((0 : Int) + (pre.length : Int)) + (Bls.length : Int)) + (post.length : Int)) _ ?_
    have hstream : mkStream (pre ++ [("#include " ++ nameB)] ++ post)
        = mkStream pre ++ (("#include " ++ nameB).data ++ '\n' :: mkStream post) := by
      rw [mkStream_append, mkStream_append]
      rw [show mkStream [("#include " ++ nameB)]
          = ("#include " ++ nameB).data ++ ['\n'] from by rw [mkStream, mkStream]]
      simp
    rw [hstream]
    rw [readAux_plain_run fs sp pre hpre]
    rw [include_line_run fs sp nameB Bls (post.length + 2) hB hn1 hn2 hfind (by omega)]
    rw [show Bls.length + (post.length + 2) = post.length + (Bls.length + 2) from by omega]
    rw [show mkStream post = mkStream post ++ ([] : List Char) from (List.append_nil _).symm]
    rw [readAux_plain_run fs sp post hpost]
    rw [readAux_eof_any fs sp (Bls.length + 2) (by omega) nameA]
    simp only [Option.some.injEq, Except.ok.injEq, Prod.mk.injEq, ReaderState.mk.injEq,
      List.nil_append, List.append_assoc, List.singleton_append, List.cons_append,
      List.cons.injEq, PreprocEvent.mk.injEq, mkStream_append, true_and, and_true]
    omega
  · rw [include_stack]
    rw [isa_start ((pre.length : Int) + k) ⟨0, 0, "start", nameA⟩ _ _ _ _ _
      (by show ¬ ((pre.length : Int) + k ≤ (0 : Int)); omega) (Or.inl rfl)]
    rw [isa_include ((pre.length : Int) + k)
      ⟨(pre.length : Int), (pre.length : Int), "include", nameB⟩ _ _ _ _ _
      (by show ¬ ((pre.length : Int) + k ≤ (pre.length : Int)); omega) rfl]
    rw [isa_start ((pre.length : Int) + k)
      ⟨(pre.length : Int), 0, "start", nameB⟩ _ _ _ _ _
      (by show ¬ ((pre.length : Int) + k ≤ (pre.length : Int)); omega) (Or.inl rfl)]
    rw [isa_cover ((pre.length : Int) + k)
      ⟨(pre.length : Int) + (Bls.length : Int), (Bls.length : Int), "end", nameB⟩ _ _ _ _ _
      (by show (pre.length : Int) + k ≤ (pre.length : Int) + (Bls.length : Int); omega)]
    simp only [List.nil_append, List.cons_append, List.singleton_append, List.cons.injEq,
      Prod.mk.injEq, true_and, and_true]
    omega
  · simp [List.length_append]
    omega

/-- Witness for C2: the one-include example document with k = 3. -/
theorem c2_single_include_document_witness :
    program_reader fsC1 ["inc/"] 7
        (mkStream (["model \x7b"] ++ ["#include " ++ "helper.stanfunc"] ++ ["\x7d"]))
        "main" =
      some (Except.ok ⟨mkStream
          (["model \x7b"] ++ ["real f(real x) \x7b", "return x;", "\x7d"] ++ ["\x7d"]),
        [⟨0, 0, "start", "main"⟩, ⟨1, 1, "include", "helper.stanfunc"⟩,
         ⟨1, 0, "start", "helper.stanfunc"⟩, ⟨4, 3, "end", "helper.stanfunc"⟩,
         ⟨4, 2, "restart", "main"⟩, ⟨5, 3, "end", "main"⟩]⟩) ∧
    include_stack 4
        [⟨0, 0, "start", "main"⟩, ⟨1, 1, "include", "helper.stanfunc"⟩,
         ⟨1, 0, "start", "helper.stanfunc"⟩, ⟨4, 3, "end", "helper.stanfunc"⟩,
         ⟨4, 2, "restart", "main"⟩, ⟨5, 3, "end", "main"⟩]
      = [("main", 2), ("helper.stanfunc", 3)] ∧
    ((["model \x7b"] ++ ["real f(real x) \x7b", "return x;", "\x7d"] ++ ["\x7d"]).length
      = 5) :=
  c2_single_include_document fsC1 ["inc/"] ["model \x7b"] ["\x7d"]
    ["real f(real x) \x7b", "return x;", "\x7d"] "main" "helper.stanfunc" 3
    (by decide) (by decide) (by decide) (by decide) (by decide) rfl
    (by decide) (by decide)

/-- Taking one more element appends the element at that index. -/
theorem take_succ_getD (x : List (String × Int)) :
    ∀ (n : Nat), n < x.length → ∀ d, x.take (n + 1) = x.take n ++ [x.getD n d] := by
  induction x with
  | nil => intro n hn; simp at hn
  | cons a xs ih =>
    intro n hn d
    cases n with
    | zero => simp [List.getD]
    | succ m =>
      have hm : m < xs.length := by simp at hn; omega
      rw [List.take_succ_cons, List.take_succ_cons, ih m hm d]
      simp [List.getD]

/-- Reading an element at an index past a block reads from the
appended singleton. -/
theorem getD_concat (ys : List (String × Int)) (y d : String × Int) :
    (ys ++ [y]).getD ys.length d = y := by
  induction ys with
  | nil => rfl
  | cons a as ih => simp [List.getD, ih]

/-- The descending render loop produces the same text as mapping the
spec's line format over the reversed prefix. -/
theorem renderLoop_take (x : List (String × Int)) :
    ∀ (n : Nat), n ≤ x.length →
      renderLoop x n = linesConcat (((x.take n).reverse).map fmtIncluded) := by
  intro n
  induction n with
  | zero => intro _; rfl
  | succ m ih =>
    intro hm
    have hmlt : m < x.length := by omega
    rw [renderLoop, ih (by omega)]
    rw [take_succ_getD x m hmlt ("", 0)]
    rw [List.reverse_append]
    simp only [List.reverse_cons, List.reverse_nil, List.nil_append, List.singleton_append,
      List.map_cons]
    rfl

/-- C7: on every non-empty provenance chain the trace renderer prints
the innermost entry as an `in file` line and then each preceding entry,
second-last down to first, as an `included from file` line, one line
per entry. -/
theorem c7_format_trace (x : List (String × Int)) (hx : x ≠ []) :
    renderTrace x = specFormat x := by
  rcases List.eq_nil_or_concat x with h | ⟨ys, y, rfl⟩
  · exact absurd h hx
  · rw [List.concat_eq_append]
    rw [renderTrace, specFormat]
    have hlen : (ys ++ [y]).length - 1 = ys.length := by simp
    rw [hlen]
    rw [getD_concat ys y ("", 0)]
    rw [renderLoop_take (ys ++ [y]) ys.length (by simp)]
    rw [List.take_left]
    rw [List.getLastD_concat, List.dropLast_concat]

/-- Witness for C7 on a two-entry chain. -/
theorem c7_format_trace_witness :
    renderTrace [("outer", 2), ("inner", 7)] = specFormat [("outer", 2), ("inner", 7)] :=
  c7_format_trace [("outer", 2), ("inner", 7)] (by simp)

/-- Invariant of the reading loop: the concatenated line counter never
decreases, every recorded event carries a counter value at most the
current one, and the history stays sorted by counter value. -/
theorem readAux_mono (fs : String → Option (List Char)) (sp : List String) :
    ∀ (fuel : Nat) (stream : List Char) (path : String) (ln concat : Int)
      (st : ReaderState) (c2 : Int) (st2 : ReaderState),
      readAux fs sp fuel stream path ln concat st = some (Except.ok (c2, st2)) →
      (∀ e ∈ st.history, e.concat_line_num ≤ concat) →
      List.Pairwise (fun a b => a.concat_line_num ≤ b.concat_line_num) st.history →
      concat ≤ c2 ∧ (∀ e ∈ st2.history, e.concat_line_num ≤ c2) ∧
        List.Pairwise (fun a b => a.concat_line_num ≤ b.concat_line_num) st2.history := by
  intro fuel
  induction fuel with
  | zero =>
    intro stream path ln concat st c2 st2 hrun _ _
    rw [readAux] at hrun
    exact absurd hrun (by simp)
  | succ n ih =>
    intro stream path ln concat st c2 st2 hrun hall hpw
    rw [readAux] at hrun
    by_cases h1 : (read_line stream).1 = []
    · rw [if_pos h1] at hrun
      simp only [Option.some.injEq, Except.ok.injEq, Prod.mk.injEq] at hrun
      obtain ⟨hc, hst⟩ := hrun
      subst hc
      subst hst
      refine ⟨le_refl concat, ?_, ?_⟩
      · intro e he
        rcases List.mem_append.mp he with hmem | hmem
        · exact hall e hmem
        · rw [List.mem_singleton] at hmem
          subst hmem
          exact le_refl concat
      · rw [List.pairwise_append]
        refine ⟨hpw, List.pairwise_singleton _ _, ?_⟩
        intro a ha b hb
        rw [List.mem_singleton] at hb
        subst hb
        exact hall a ha
    · rw [if_neg h1] at hrun
      by_cases h2 : starts_with "#include ".data (read_line stream).1 = true
      · rw [if_pos h2] at hrun
        cases hf : findInclude fs sp (String.mk (include_path (read_line stream).1)) with
        | none =>
          simp only [hf] at hrun
          simp at hrun
        | some content =>
          simp only [hf] at hrun
          cases hin : readAux fs sp n content
              (String.mk (include_path (read_line stream).1)) 1 concat
              ⟨st.program, st.history
                ++ [⟨concat, ln - 1, "include",
                      String.mk (include_path (read_line stream).1)⟩]
                ++ [⟨concat, 0, "start",
                      String.mk (include_path (read_line stream).1)⟩]⟩ with
          | none =>
            simp only [hin] at hrun
            exact absurd hrun (by simp)
          | some r =>
            cases r with
            | error e =>
              simp only [hin] at hrun
              simp at hrun
            | ok pr =>
              obtain ⟨ci, sti⟩ := pr
              simp only [hin] at hrun
              have hallin : ∀ e ∈ (⟨st.program, st.history
                  ++ [⟨concat, ln - 1, "include",
                        String.mk (include_path (read_line stream).1)⟩]
                  ++ [⟨concat, 0, "start",
                        String.mk (include_path (read_line stream).1)⟩]⟩ :
                    ReaderState).history, e.concat_line_num ≤ concat := by
                intro e he
                rcases List.mem_append.mp he with hmem | hmem
                · rcases List.mem_append.mp hmem with hmem2 | hmem2
                  · exact hall e hmem2
                  · rw [List.mem_singleton] at hmem2
                    subst hmem2
                    exact le_refl concat
                · rw [List.mem_singleton] at hmem
                  subst hmem
                  exact le_refl concat
              have hpwin : List.Pairwise (fun a b =>
                  a.concat_line_num ≤ b.concat_line_num) ((⟨st.program, st.history
                  ++ [⟨concat, ln - 1, "include",
                        String.mk (include_path (read_line stream).1)⟩]
                  ++ [⟨concat, 0, "start",
                        String.mk (include_path (read_line stream).1)⟩]⟩ :
                    ReaderState).history) := by
                rw [List.pairwise_append, List.pairwise_append]
                refine ⟨⟨hpw, List.pairwise_singleton _ _, ?_⟩,
                  List.pairwise_singleton _ _, ?_⟩
                · intro a ha b hb
                  rw [List.mem_singleton] at hb
                  subst hb
                  exact hall a ha
                · intro a ha b hb
                  rw [List.mem_singleton] at hb
                  subst hb
                  rcases List.mem_append.mp ha with hmem | hmem
                  · exact hall a hmem
                  · rw [List.mem_singleton] at hmem
                    subst hmem
                    exact le_refl concat
              obtain ⟨hle1, hall1, hpw1⟩ := ih content
                (String.mk (include_path (read_line stream).1)) 1 concat
                _ ci sti hin hallin hpwin
              have hallcont : ∀ e ∈ (⟨sti.program,
                  sti.history ++ [⟨ci, ln, "restart", path⟩]⟩ :
                    ReaderState).history, e.concat_line_num ≤ ci := by
                intro e he
                rcases List.mem_append.mp he with hmem | hmem
                · exact hall1 e hmem
                · rw [List.mem_singleton] at hmem
                  subst hmem
                  exact le_refl ci
              have hpwcont : List.Pairwise (fun a b =>
                  a.concat_line_num ≤ b.concat_line_num)
                  ((⟨sti.program, sti.history ++ [⟨ci, ln, "restart", path⟩]⟩ :
                    ReaderState).history) := by
                rw [List.pairwise_append]
                refine ⟨hpw1, List.pairwise_singleton _ _, ?_⟩
                intro a ha b hb
                rw [List.mem_singleton] at hb
                subst hb
                exact hall1 a ha
              obtain ⟨hle2, hall2, hpw2⟩ := ih (read_line stream).2 path (ln + 1) ci
                _ c2 st2 hrun hallcont hpwcont
              exact ⟨le_trans hle1 hle2, hall2, hpw2⟩
      · rw [if_neg h2] at hrun
        have hallc : ∀ e ∈ (⟨st.program ++ (read_line stream).1, st.history⟩ :
            ReaderState).history, e.concat_line_num ≤ concat + 1 := by
          intro e he
          exact le_trans (hall e he) (by omega)
        obtain ⟨hle, hall2, hpw2⟩ := ih (read_line stream).2 path (ln + 1) (concat + 1)
          _ c2 st2 hrun hallc hpw
        exact ⟨by omega, hall2, hpw2⟩

/-- A pairwise-sorted history read at two positions in order. -/
theorem pairwise_concat_le_getD (l : List PreprocEvent)
    (hp : List.Pairwise (fun a b => a.concat_line_num ≤ b.concat_line_num) l)
    (i j : Nat) (hij : i ≤ j) (hj : j < l.length) :
    (l.getD i ⟨0, 0, "", ""⟩).concat_line_num ≤
      (l.getD j ⟨0, 0, "", ""⟩).concat_line_num := by
  have hi : i < l.length := by omega
  have hgi : l.getD i ⟨0, 0, "", ""⟩ = l[i] := by
    rw [List.getD_eq_getElem?_getD, List.getElem?_eq_getElem hi]
    rfl
  have hgj : l.getD j ⟨0, 0, "", ""⟩ = l[j] := by
    rw [List.getD_eq_getElem?_getD, List.getElem?_eq_getElem hj]
    rfl
  rw [hgi, hgj]
  rcases Nat.eq_or_lt_of_le hij with rfl | hlt
  · exact le_refl _
  · exact List.pairwise_iff_getElem.mp hp i j hi hj hlt

/-- C8: in the event log of every completed flattening pass the
concatenated line numbers are non-decreasing in log order. -/
theorem c8_concat_line_monotone (fs : String → Option (List Char)) (sp : List String)
    (fuel : Nat) (stream : List Char) (name : String) (st : ReaderState)
    (i j : Nat)
    (hrun : program_reader fs sp fuel stream name = some (Except.ok st))
    (hij : i ≤ j) (hj : j < st.history.length) :
    (st.history.getD i ⟨0, 0, "", ""⟩).concat_line_num ≤
      (st.history.getD j ⟨0, 0, "", ""⟩).concat_line_num := by
  rw [program_reader_eq] at hrun
  cases hres : readAux fs sp fuel stream name 1 0 ⟨[], [⟨0, 0, "start", name⟩]⟩ with
  | none =>
    simp only [hres] at hrun
    exact absurd hrun (by simp)
  | some r =>
    cases r with
    | error e =>
      simp only [hres] at hrun
      simp at hrun
    | ok pr =>
      obtain ⟨c, stF⟩ := pr
      simp only [hres, Option.some.injEq, Except.ok.injEq] at hrun
      subst hrun
      have hall0 : ∀ e ∈ (⟨[], [⟨0, 0, "start", name⟩]⟩ : ReaderState).history,
          e.concat_line_num ≤ (0 : Int) := by
        intro e he
        rw [List.mem_singleton] at he
        subst he
        exact le_refl 0
      obtain ⟨_, _, hpw⟩ := readAux_mono fs sp fuel stream name 1 0
        ⟨[], [⟨0, 0, "start", name⟩]⟩ c stF hres hall0
        (List.pairwise_singleton _ _)
      exact pairwise_concat_le_getD stF.history hpw i j hij hj

/-- Witness for C8 at positions 1 and 4 of the concrete example's log. -/
theorem c8_concat_line_monotone_witness :
    (((⟨mkStream ["model \x7b", "real f(real x) \x7b", "return x;", "\x7d", "\x7d"],
        histC1⟩ : ReaderState).history.getD 1 ⟨0, 0, "", ""⟩).concat_line_num ≤
      ((⟨mkStream ["model \x7b", "real f(real x) \x7b", "return x;", "\x7d", "\x7d"],
        histC1⟩ : ReaderState).history.getD 4 ⟨0, 0, "", ""⟩).concat_line_num) :=
  c8_concat_line_monotone fsC1 ["inc/"] 10
    (mkStream ["model \x7b", "#include helper.stanfunc", "\x7d"]) "main"
    ⟨mkStream ["model \x7b", "real f(real x) \x7b", "return x;", "\x7d", "\x7d"], histC1⟩
    1 4 rfl (by norm_num) (by decide)
